import Mathlib

set_option maxHeartbeats 1000000

/-!
Verification of the intent-normalization and similarity-scoring engine of the
feature-duplicate checker.  The definitions below are a shallow embedding of the
TypeScript sources:

* `UpdateIntent`  — `supabase/functions/update-intent-text/index.ts`
* `ProcessCsv`    — the CSV-processing function (`extractIntent` and friends)
* `SearchSimilar` — `supabase/functions/search-similar/index.ts`

JavaScript strings are modelled through `String`/`List Char`; floating point
numbers are modelled by exact rationals (`ℚ`) where the code is decidable and by
real numbers (`ℝ`) where the code uses `Math.log`/`Math.sqrt`.
-/

/-- Model of the JavaScript whitespace class `\s` as used by `split(/\s+/)`,
`trim()` and the `[^\w\s一-龥]` class (restricted to the ASCII
whitespace characters that can occur in the corpus). -/
def isWsC (c : Char) : Bool := c == ' ' || c == '\t' || c == '\n' || c == '\r'

/-- Worker for `splitWs`: accumulates the current (reversed) token. -/
def splitWsGo (acc : List Char) : List Char → List String
  | [] => if acc.isEmpty then [] else [String.mk acc.reverse]
  | c :: rest =>
    if isWsC c then
      if acc.isEmpty then splitWsGo [] rest
      else String.mk acc.reverse :: splitWsGo [] rest
    else splitWsGo (c :: acc) rest

/-- Model of JS `text.split(/\s+/)` with empty fragments dropped.  (The JS call
can produce one empty leading fragment; every consumer of the split either
filters empty words or drops them through a length test, so the two models
agree on all downstream values.) -/
def splitWs (s : String) : List String := splitWsGo [] s.data

/-- Model of JS `Array.prototype.join(' ')`. -/
def joinSp : List String → String
  | [] => ""
  | [x] => x
  | x :: y :: rest => x ++ " " ++ joinSp (y :: rest)

/-- Model of JS `String.prototype.trim()`. -/
def trimS (s : String) : String :=
  String.mk (((s.data.dropWhile isWsC).reverse.dropWhile isWsC).reverse)

/-- Decides whether the first list is an initial segment of the second. -/
def isPrefOf : List Char → List Char → Bool
  | [], _ => true
  | _ :: _, [] => false
  | a :: as, b :: bs => a == b && isPrefOf as bs

/-- Decides whether `n` occurs contiguously inside the second list. -/
def subAt : List Char → List Char → Bool
  | n, [] => n.isEmpty
  | n, c :: rest => isPrefOf n (c :: rest) || subAt n rest

/-- Model of JS `hay.includes(needle)`. -/
def strIncludes (hay needle : String) : Bool := subAt needle.data hay.data

/-- Model of JS `String.prototype.toLowerCase` (ASCII case folding; all the
CJK characters in the lexicon are unaffected by case folding). -/
def lowerStr (s : String) : String := String.mk (s.data.map Char.toLower)

/-- The regex class `[a-zA-Z0-9]`. -/
def isAlnumC (c : Char) : Bool :=
  (decide (0x61 ≤ c.toNat) && decide (c.toNat ≤ 0x7a)) ||
  (decide (0x41 ≤ c.toNat) && decide (c.toNat ≤ 0x5a)) ||
  (decide (0x30 ≤ c.toNat) && decide (c.toNat ≤ 0x39))

/-- The regex class `[一-龥]` (CJK ideographs). -/
def isCJKC (c : Char) : Bool := decide (0x4e00 ≤ c.toNat) && decide (c.toNat ≤ 0x9fa5)

/-- The regex class `\w` = `[A-Za-z0-9_]`. -/
def isWordCharC (c : Char) : Bool := isAlnumC c || c == '_'

/-- One of the five grammatical particles of the lookahead `(?!的|了|是|在|有)`. -/
def particleChar (c : Char) : Bool :=
  c == '的' || c == '了' || c == '是' || c == '在' || c == '有'

/-- One of the filler characters of `/^[的了是在有个这那]/`. -/
def fillerChar (c : Char) : Bool :=
  c == '的' || c == '了' || c == '是' || c == '在' || c == '有' ||
  c == '个' || c == '这' || c == '那'

/-- Opening delimiters of the slot pattern `[《「『"']`. -/
def openQuoteC (c : Char) : Bool :=
  c == '《' || c == '「' || c == '『' || c == '"' || c == '\''

/-- Closing delimiters of the slot pattern `[》」』"']`. -/
def closeQuoteC (c : Char) : Bool :=
  c == '》' || c == '」' || c == '』' || c == '"' || c == '\''

/-- Characters matched by the regex metacharacter `.` (no line terminators). -/
def dotC (c : Char) : Bool :=
  !(c == '\n') && !(c == '\r') && !(decide (c.toNat = 0x2028)) && !(decide (c.toNat = 0x2029))

/-- Lazy search for the closing delimiter: the shortest `(.*?)` body followed by
a closing delimiter.  Returns the remainder of the input after the close. -/
def findCloseQ : List Char → Option (List Char)
  | [] => none
  | d :: ds => if closeQuoteC d then some ds else if dotC d then findCloseQ ds else none

theorem findCloseQ_length :
    ∀ (l l2 : List Char), findCloseQ l = some l2 → l2.length < l.length := by
  intro l
  induction l with
  | nil => intro l2 h; simp [findCloseQ] at h
  | cons d ds ih =>
    intro l2 h
    rw [findCloseQ] at h
    by_cases hc : closeQuoteC d = true
    · simp [hc] at h
      subst h
      simp
    · by_cases hd : dotC d = true
      · simp [hc, hd] at h
        have := ih l2 h
        simp
        omega
      · simp [hc, hd] at h

/-- Worker for `redactDelims`, structurally recursive on a fuel argument so
that the scan reduces inside the kernel.  Every recursive call strictly
shrinks the character list (`findCloseQ_length`), so fuel `l.length` never
runs out and the zero-fuel clause is unreachable. -/
def redactDelimsGo (repl : List Char) : Nat → List Char → List Char
  | _, [] => []
  | 0, l => l
  | fuel + 1, c :: rest =>
    if openQuoteC c then
      match findCloseQ rest with
      | some rest2 => repl ++ redactDelimsGo repl fuel rest2
      | none => c :: redactDelimsGo repl fuel rest
    else c :: redactDelimsGo repl fuel rest

/-- Global replacement for the first slot pattern `[《「『"'](.*?)[》」』"']` with
replacement text `repl`: a leftmost scan, restarting after each (lazy,
shortest) match, exactly as the JS regex engine behaves on this pattern. -/
def redactDelims (repl : List Char) (l : List Char) : List Char :=
  redactDelimsGo repl l.length l

/-- Length of the maximal `[a-zA-Z0-9]` run at the head of the list. -/
def alnumRun : List Char → Nat
  | [] => 0
  | c :: rest => if isAlnumC c then alnumRun rest + 1 else 0

/-- Length of the maximal `[一-龥]` run at the head of the list. -/
def cjkRun : List Char → Nat
  | [] => 0
  | c :: rest => if isCJKC c then cjkRun rest + 1 else 0

/-- The lookahead `(?!的|了|是|在|有)` holds after a candidate match of length
`k` starting at the head of `l`. -/
def lookOk (l : List Char) (k : Nat) : Bool :=
  match l.drop k with
  | [] => true
  | d :: _ => !particleChar d

/-- Backtracking for the `[一-龥]{3,10}` alternative: the greatest
`k ≤ bound` with `3 ≤ k` whose lookahead succeeds. -/
def findCjkLen (l : List Char) : Nat → Option Nat
  | 0 => none
  | k + 1 =>
    if k + 1 < 3 then none
    else if lookOk l (k + 1) then some (k + 1)
    else findCjkLen l k

/-- The `[a-zA-Z0-9]{2,}` alternative at the head of `l`: greedy, backing off
one character when the lookahead fails (one step suffices, because the
character before the last run character is alphanumeric, never a particle). -/
def tryAlnum (l : List Char) : Option Nat :=
  let m := alnumRun l
  if 2 ≤ m then
    if lookOk l m then some m
    else if 3 ≤ m then some (m - 1) else none
  else none

/-- Attempt to match `([a-zA-Z0-9]{2,}|[一-龥]{3,10})(?!的|了|是|在|有)`
at the head of `l`; returns the length of the match. -/
def tryMatch2 (l : List Char) : Option Nat :=
  match tryAlnum l with
  | some k => some k
  | none => findCjkLen l (min (cjkRun l) 10)

theorem findCjkLen_ge : ∀ (l : List Char) (b k : Nat), findCjkLen l b = some k → 2 ≤ k := by
  intro l b
  induction b with
  | zero => intro k h; simp [findCjkLen] at h
  | succ b ih =>
    intro k h
    rw [findCjkLen] at h
    by_cases h3 : b + 1 < 3
    · simp [h3] at h
    · by_cases hlo : lookOk l (b + 1) = true
      · simp [h3, hlo] at h
        omega
      · simp [h3, hlo] at h
        exact ih k h

theorem tryMatch2_ge : ∀ (l : List Char) (k : Nat), tryMatch2 l = some k → 2 ≤ k := by
  intro l k h
  rw [tryMatch2] at h
  cases ha : tryAlnum l with
  | some k0 =>
    rw [ha] at h
    cases h
    rw [tryAlnum] at ha
    by_cases h2 : 2 ≤ alnumRun l
    · simp only [h2, if_true] at ha
      by_cases hlo : lookOk l (alnumRun l) = true
      · simp [hlo] at ha; omega
      · by_cases h3 : 3 ≤ alnumRun l
        · simp [hlo, h3] at ha; omega
        · simp [hlo, h3] at ha
    · simp [h2] at ha
  | none =>
    rw [ha] at h
    exact findCjkLen_ge _ _ _ h

/-- The lookbehind `(?<!打开|搜索|播放|查看)` fails at a position whose two
preceding characters (if any) are given. -/
def lookBehindBlocked (p2 p1 : Option Char) : Bool :=
  match p2, p1 with
  | some a, some b =>
    (a == '打' && b == '开') || (a == '搜' && b == '索') ||
    (a == '播' && b == '放') || (a == '查' && b == '看')
  | _, _ => false

/-- Worker for `redactRuns`, structurally recursive on a fuel argument so that
the scan reduces inside the kernel.  Every recursive call strictly shrinks the
character list (a match consumes at least two characters, `tryMatch2_ge`), so
fuel `l.length` never runs out and the zero-fuel clause is unreachable. -/
def redactRunsGo (repl : List Char) : Nat → Option Char → Option Char → List Char → List Char
  | _, _, _, [] => []
  | 0, _, _, l => l
  | fuel + 1, p2, p1, c :: rest =>
    if lookBehindBlocked p2 p1 then c :: redactRunsGo repl fuel p1 (some c) rest
    else
      match tryMatch2 (c :: rest) with
      | some k =>
        repl ++ redactRunsGo repl fuel ((c :: rest).get? (k - 2)) ((c :: rest).get? (k - 1))
          ((c :: rest).drop k)
      | none => c :: redactRunsGo repl fuel p1 (some c) rest

/-- Global replacement for the second slot pattern
`(?<!打开|搜索|播放|查看)([a-zA-Z0-9]{2,}|[一-龥]{3,10})(?!的|了|是|在|有)`:
a left-to-right scan over the original characters, tracking the previous two
original characters for the lookbehind and restarting right after each match. -/
def redactRuns (repl : List Char) (p2 p1 : Option Char) (l : List Char) : List Char :=
  redactRunsGo repl l.length p2 p1 l

/-- The placeholder the slot patterns substitute for an argument span. -/
def qPlaceholder : String := "<QUERY>"

/-- `SLOT_PATTERNS` applied in declaration order: the delimited-span pattern
first, the bare-run pattern on its output, both substituting `<QUERY>`. -/
def applySlotPatterns (text : String) : String :=
  String.mk (redactRuns qPlaceholder.data none none (redactDelims qPlaceholder.data text.data))

/-- The verb-normalization table `ACTION_NORMALIZATION` of
`update-intent-text/index.ts` (identical in the CSV-processing function), as an
ordered key/value list: JS object literals with plain string keys enumerate in
declaration order under `Object.entries`. -/
def ACTION_NORMALIZATION : List (String × String) :=
  [("打开", "打开"), ("进入", "打开"), ("启动", "打开"), ("开启", "打开"), ("访问", "打开"),
   ("搜索", "搜索"), ("查找", "搜索"), ("搜一下", "搜索"), ("找", "搜索"), ("检索", "搜索"),
   ("播放", "播放"), ("听", "播放"), ("听一下", "播放"), ("放", "播放"), ("观看", "播放"),
   ("看", "播放"),
   ("点赞", "点赞"), ("赞", "点赞"), ("喜欢", "点赞"),
   ("评论", "评论"), ("留言", "评论"), ("发表评论", "评论"),
   ("关注", "关注"), ("订阅", "关注"), ("加关注", "关注"),
   ("分享", "分享"), ("转发", "分享"),
   ("收藏", "收藏"), ("保存", "收藏"),
   ("删除", "删除"), ("移除", "删除"),
   ("添加", "添加"), ("新增", "添加"), ("创建", "添加"),
   ("编辑", "编辑"), ("修改", "编辑"), ("更改", "编辑"),
   ("查看", "查看"), ("浏览", "查看"), ("查询", "查看"),
   ("下载", "下载"), ("保存到本地", "下载"),
   ("上传", "上传"), ("发布", "上传"),
   ("登录", "登录"), ("登陆", "登录"), ("登入", "登录"),
   ("退出", "退出"), ("登出", "退出"), ("退出登录", "退出"),
   ("取消", "取消"), ("撤销", "取消")]

/-- The inner lookup loop of the verb-canonicalization step: scan the table in
declaration order and stop at the first key the word contains. -/
def scanActionTable : List (String × String) → String → Option String
  | [], _ => none
  | (k, v) :: rest, w => if strIncludes w k then some v else scanActionTable rest w

/-- Whether a word starts with one of the filler characters,
JS `word.match(/^[的了是在有个这那]/)`. -/
def startsWithFiller (w : String) : Bool :=
  match w.data with
  | [] => false
  | c :: _ => fillerChar c

namespace UpdateIntent

/-- One iteration of the word loop of `normalizeIntent`
(`update-intent-text/index.ts`, lines 47–64): skip the placeholder, otherwise
try verb canonicalization (pushing the canonical action if it is new), and
otherwise keep the word as a residual token when it is long enough and does not
start with a filler character. -/
def stepWord (acc : List String) (w : String) : List String :=
  if w == qPlaceholder then acc
  else
    match scanActionTable ACTION_NORMALIZATION w with
    | some v => if v ∈ acc then acc else acc ++ [v]
    | none =>
      if decide (2 ≤ w.length) && !startsWithFiller w then acc ++ [w] else acc

/-- Model of `[...new Set(words)]`: deduplication keeping first occurrences. -/
def dedupFirstGo (seen : List String) : List String → List String
  | [] => []
  | x :: xs => if x ∈ seen then dedupFirstGo seen xs else x :: dedupFirstGo (x :: seen) xs

/-- Deduplication keeping the first occurrence of each element. -/
def dedupFirst (l : List String) : List String := dedupFirstGo [] l

/-- `normalizeIntent` of `update-intent-text/index.ts` (the structural
normalization variant; the copy in the CSV-processing function is the same
function without the initial empty-text guard, which is extensionally
equal). -/
def normalizeIntent (text : String) : String :=
  if text == "" then ""
  else
    let normalized := applySlotPatterns text
    let words := splitWs normalized
    let normalizedWords := words.foldl stepWord []
    trimS (joinSp (dedupFirst normalizedWords))

end UpdateIntent

namespace ProcessCsv

/-- A truthiness filter on an optional structural label: JS `if (x) parts.push(x)`
treats both `null` and the empty string as absent. -/
def optPart : Option String → List String
  | some s => if s == "" then [] else [s]
  | none => []

/-- The per-query loop of `extractIntent`: normalize each query and keep the
non-empty results (JS `if (normalized) parts.push(normalized)`). -/
def queryParts (queries : List String) : List String :=
  queries.filterMap (fun q =>
    let n := UpdateIntent.normalizeIntent q
    if n == "" then none else some n)

/-- `extractIntent` of the CSV-processing function: prepend the structural
labels in hierarchy order, append the per-query normalizations, join, and
re-normalize the combined string. -/
def extractIntent (level1 functionPoint subFunction : Option String)
    (queries : List String) : String :=
  let parts := optPart level1 ++ optPart functionPoint ++ optPart subFunction ++
    queryParts queries
  let combined := joinSp parts
  UpdateIntent.normalizeIntent combined

end ProcessCsv

namespace SearchSimilar

/-- The known application-name list `APP_NAMES` (declaration order). -/
def APP_NAMES : List String :=
  ["全民K歌", "抖音", "微信", "支付宝", "淘宝", "京东", "美团", "饿了么",
   "哔哩哔哩", "B站", "快手", "小红书", "知乎", "百度", "网易云音乐",
   "QQ", "钉钉", "企业微信", "拼多多", "闲鱼", "高德地图", "百度地图",
   "携程", "飞猪", "去哪儿", "12306", "滴滴", "花小猪", "曹操出行"]

/-- The verb-normalization map `ACTION_MAP` of `search-similar/index.ts`
as an ordered key/value list. -/
def ACTION_MAP : List (String × String) :=
  [("打开", "打开"), ("进入", "打开"), ("启动", "打开"), ("开启", "打开"),
   ("搜索", "搜索"), ("查找", "搜索"), ("搜一下", "搜索"), ("找", "搜索"),
   ("播放", "播放"), ("听", "播放"), ("观看", "播放"), ("看", "播放"),
   ("点赞", "点赞"), ("赞", "点赞"), ("喜欢", "点赞"),
   ("评论", "评论"), ("留言", "评论"),
   ("关注", "关注"), ("订阅", "关注"),
   ("分享", "分享"), ("转发", "分享"),
   ("收藏", "收藏"), ("保存", "收藏"),
   ("删除", "删除"), ("移除", "删除"),
   ("添加", "添加"), ("新增", "添加"), ("创建", "添加"),
   ("编辑", "编辑"), ("修改", "编辑"),
   ("查看", "查看"), ("浏览", "查看"),
   ("下载", "下载"), ("上传", "上传"), ("发布", "上传"),
   ("登录", "登录"), ("退出", "退出")]

/-- The content-keyword exclusion list `CONTENT_KEYWORDS`. -/
def CONTENT_KEYWORDS : List String :=
  ["山楂树之恋", "周杰伦", "晴天", "七里香", "快乐", "美食", "旅游",
   "搞笑", "音乐", "视频", "图片", "文章", "新闻"]

/-- `extractAppName`: the first known application name (in declaration order)
that occurs in the text. -/
def extractAppName (text : String) : Option String :=
  APP_NAMES.find? (fun app => strIncludes text app)

/-- `extractActions`: scan the whole `ACTION_MAP` (no early exit) and collect
each mapped action whose key occurs in the text, deduplicating on the fly. -/
def extractActions (text : String) : List String :=
  ACTION_MAP.foldl
    (fun acc kv => if strIncludes text kv.1 && !(acc.contains kv.2) then acc ++ [kv.2] else acc)
    []

/-- Model of JS `s.replace(keyword, '')` for a plain-string pattern: remove the
first occurrence only. -/
def removeFirstOcc (hay needle : List Char) : List Char :=
  match hay with
  | [] => []
  | c :: rest =>
    if isPrefOf needle (c :: rest) then (c :: rest).drop needle.length
    else c :: removeFirstOcc rest needle

/-- All mapped actions (`Object.values(ACTION_MAP)`), with repetitions. -/
def actionValues : List String := ACTION_MAP.map (fun kv => kv.2)

/-- The word filter of `removeContentParams`: keep canonical actions and app
names; drop 3–8-character all-CJK words that are content keywords. -/
def keepWord (w : String) : Bool :=
  if w ∈ actionValues then true
  else if w ∈ APP_NAMES then true
  else if 3 ≤ w.length ∧ w.length ≤ 8 ∧ w.data.all isCJKC = true then
    decide (w ∉ CONTENT_KEYWORDS)
  else true

/-- `removeContentParams`: strip the first occurrence of each content keyword,
remove delimited spans, then filter the whitespace-split words. -/
def removeContentParams (text : String) : String :=
  let cleaned := CONTENT_KEYWORDS.foldl
    (fun s kw => String.mk (removeFirstOcc s.data kw.data)) text
  let cleaned2 := String.mk (redactDelims [] cleaned.data)
  let words := splitWs cleaned2
  let filtered := words.filter keepWord
  joinSp filtered

/-- `normalizeIntent` of `search-similar/index.ts` (the query-time,
entity-aware normalization variant). -/
def normalizeIntent (text : String) : String :=
  if text == "" then ""
  else
    let parts :=
      (match extractAppName text with
       | some a => [a]
       | none => []) ++ extractActions text
    if parts.isEmpty then trimS (String.mk ((removeContentParams text).data.take 20))
    else trimS (joinSp parts)

/-- Lower-cased whitespace tokens of an intent string with empty words
dropped, as in `computeIntentSimilarity`. -/
def tokenList (s : String) : List String := splitWs (lowerStr s)

/-- `computeIntentSimilarity`: Jaccard index of the case-folded token sets,
dampened by `0.3` when both sides resolve (in `APP_NAMES` declaration order) to
distinct known application names. -/
def computeIntentSimilarity (query record : String) : ℚ :=
  if query == "" || record == "" then 0
  else
    let queryWords := tokenList query
    let recordWords := tokenList record
    if queryWords.isEmpty || recordWords.isEmpty then 0
    else
      let querySet := queryWords.toFinset
      let recordSet := recordWords.toFinset
      let appMatch :=
        match APP_NAMES.find? (fun app => strIncludes query app),
              APP_NAMES.find? (fun app => strIncludes record app) with
        | some queryApp, some recordApp => queryApp == recordApp
        | _, _ => true
      let inter := querySet ∩ recordSet
      let uni := querySet ∪ recordSet
      let similarity : ℚ := (inter.card : ℚ) / (uni.card : ℚ)
      if appMatch then similarity else similarity * (3 / 10)

/-- `preprocessText`: lower-case, replace every character outside
`\w`, `\s` and the CJK range by a space, split on whitespace, drop empties. -/
def preprocessText (text : String) : List String :=
  if text == "" then []
  else
    splitWs (String.mk ((lowerStr text).data.map
      (fun c => if isWordCharC c || isWsC c || isCJKC c then c else ' ')))

/-- A sparse term-weight vector (`Map<string, number>`): a finite key set plus
a weight function; lookups outside the key set read `0` (JS `get(w) ?? 0`). -/
structure SparseVec where
  support : Finset String
  val : String → ℝ

/-- Model of `vec.get(word) || 0`. -/
noncomputable def vGet (v : SparseVec) (w : String) : ℝ :=
  if w ∈ v.support then v.val w else 0

/-- `computeTermFrequency`: raw counts divided by the document length. -/
noncomputable def computeTermFrequency (words : List String) : SparseVec :=
  ⟨words.toFinset, fun w => (words.count w : ℝ) / (words.length : ℝ)⟩

/-- `computeIDF`: for each term of the corpus, `ln(docCount / docsContaining)`. -/
noncomputable def computeIDF (documents : List (List String)) : SparseVec :=
  ⟨(documents.map List.toFinset).foldl (fun a b => a ∪ b) ∅,
   fun w => Real.log ((documents.length : ℝ) /
     ((documents.countP (fun d => decide (w ∈ d))) : ℝ))⟩

/-- `computeTFIDF`: pointwise product over the term-frequency keys. -/
noncomputable def computeTFIDF (tf idf : SparseVec) : SparseVec :=
  ⟨tf.support, fun w => vGet tf w * vGet idf w⟩

/-- `cosineSimilarity` over the union of the two key sets, with the zero-norm
guard returning `0`. -/
noncomputable def cosineSimilarity (vec1 vec2 : SparseVec) : ℝ :=
  let allWords := vec1.support ∪ vec2.support
  let dotProduct := ∑ w ∈ allWords, vGet vec1 w * vGet vec2 w
  let norm1 := ∑ w ∈ allWords, vGet vec1 w ^ 2
  let norm2 := ∑ w ∈ allWords, vGet vec2 w ^ 2
  if norm1 = 0 ∨ norm2 = 0 then 0
  else dotProduct / (Real.sqrt norm1 * Real.sqrt norm2)

end SearchSimilar

/-- A scored search result (`SearchResult` of `search-similar/index.ts`,
restricted to the fields the engine computes or compares; scores are kept
abstract in an ordered field so that the same comparator serves the exact
rational witnesses and the real-valued pipeline). -/
structure SearchResult (α : Type) where
  id : Nat
  intent_text : String
  intent_similarity : α
  text_similarity : α
  is_duplicate : Bool
deriving DecidableEq

/-- `isDuplicate` (line 308): both thresholds must be cleared. -/
def isDuplicate {α : Type} [LinearOrderedField α] (intentSimilarity textSimilarity : α) : Bool :=
  decide (7 / 10 ≤ intentSimilarity) && decide (3 / 10 ≤ textSimilarity)

/-- The comparator passed to `results.sort` (lines 322–330), returning a signed
number: duplicates first, then intent similarity descending outside a `0.01`
tolerance, then text similarity descending. -/
def resultCmp {α : Type} [LinearOrderedField α] (a b : SearchResult α) : α :=
  if a.is_duplicate ≠ b.is_duplicate then (if a.is_duplicate then -1 else 1)
  else if 1 / 100 < |a.intent_similarity - b.intent_similarity| then
    b.intent_similarity - a.intent_similarity
  else b.text_similarity - a.text_similarity

/-- `a` may be placed before `b` by the comparator (non-positive comparator
value). -/
def resultLE {α : Type} [LinearOrderedField α] (a b : SearchResult α) : Prop :=
  resultCmp a b ≤ 0

instance {α : Type} [LinearOrderedField α] : DecidableRel (resultLE (α := α)) :=
  fun a b => inferInstanceAs (Decidable (resultCmp a b ≤ 0))

/-- The ranking step: stable sort by the comparator, then `slice(0, 5)`. -/
def rankResults {α : Type} [LinearOrderedField α]
    (results : List (SearchResult α)) : List (SearchResult α) :=
  (List.insertionSort resultLE results).take 5

/-- The ordering criterion exactly as the specification words it: (1)
`is_duplicate` descending; (2) `intent_similarity` descending, where scores
differing by at most `0.01` are treated as tied; (3) ties broken by
`text_similarity` descending. -/
def specPrecedes {α : Type} [LinearOrderedField α] (a b : SearchResult α) : Prop :=
  (a.is_duplicate = true ∧ b.is_duplicate = false)
  ∨ (a.is_duplicate = b.is_duplicate ∧
      b.intent_similarity + 1 / 100 < a.intent_similarity)
  ∨ (a.is_duplicate = b.is_duplicate ∧
      |a.intent_similarity - b.intent_similarity| ≤ 1 / 100 ∧
      b.text_similarity ≤ a.text_similarity)

instance {α : Type} [LinearOrderedField α] : DecidableRel (specPrecedes (α := α)) :=
  fun a b => inferInstanceAs (Decidable
    ((a.is_duplicate = true ∧ b.is_duplicate = false)
      ∨ (a.is_duplicate = b.is_duplicate ∧
          b.intent_similarity + 1 / 100 < a.intent_similarity)
      ∨ (a.is_duplicate = b.is_duplicate ∧
          |a.intent_similarity - b.intent_similarity| ≤ 1 / 100 ∧
          b.text_similarity ≤ a.text_similarity)))

/-- A corpus record as fetched from the `function_records` table (the fields
the scoring path reads). -/
structure FunctionRecord where
  id : Nat
  search_text : String
  intent_text : Option String

namespace SearchSimilar

/-- `record.intent_text || normalizeIntent(record.search_text)` — a missing or
empty cached intent falls back to on-the-fly normalization. -/
def effectiveIntent (r : FunctionRecord) : String :=
  match r.intent_text with
  | some t => if t == "" then normalizeIntent r.search_text else t
  | none => normalizeIntent r.search_text

/-- The scoring loop of the serve handler (lines 277–319): normalize the query,
build the TF-IDF model over all record texts plus the query, and score every
record. -/
noncomputable def scoreRecords (query : String) (records : List FunctionRecord) :
    List (SearchResult ℝ) :=
  let queryIntent := normalizeIntent query
  let queryWords := preprocessText query
  let allTextDocuments := records.map (fun r => preprocessText r.search_text) ++ [queryWords]
  let textIdf := computeIDF allTextDocuments
  let queryTextTFIDF := computeTFIDF (computeTermFrequency queryWords) textIdf
  records.map (fun r =>
    let recordIntent := effectiveIntent r
    let intentSimilarity := computeIntentSimilarity queryIntent recordIntent
    let textTFIDF := computeTFIDF (computeTermFrequency (preprocessText r.search_text)) textIdf
    let textSimilarity := cosineSimilarity queryTextTFIDF textTFIDF
    { id := r.id, intent_text := recordIntent,
      intent_similarity := (intentSimilarity : ℝ),
      text_similarity := textSimilarity,
      is_duplicate := isDuplicate (α := ℝ) (intentSimilarity : ℝ) textSimilarity })

/-- The JSON body of a successful response; fields that a branch does not set
are `none` (absent keys in the serialized JSON). -/
structure SearchResponse where
  results : List (SearchResult ℝ)
  totalRecords : Option Nat
  queryIntent : Option String
  hasDuplicate : Option Bool
  message : Option String

/-- The non-empty-corpus branch of the serve handler (lines 277–346): score,
sort, truncate to five, and report `hasDuplicate` over the truncated list. -/
noncomputable def buildResponse (query : String) (records : List FunctionRecord) :
    SearchResponse :=
  let results := scoreRecords query records
  let top5 := rankResults results
  { results := top5,
    totalRecords := some records.length,
    queryIntent := some (normalizeIntent query),
    hasDuplicate := some (top5.any (fun r => r.is_duplicate)),
    message := none }

/-- The serve handler of `search-similar/index.ts` after the database fetch,
as a function of the parsed `query` field (`none` models a missing or
undefined field) and the fetched records: the falsy-query guard throws
`Query is required`; an empty record set short-circuits with a bare
`results: []` message body; otherwise the scoring pipeline runs. -/
noncomputable def serveSearch (query : Option String) (records : List FunctionRecord) :
    Except String SearchResponse :=
  match query with
  | none => Except.error "Query is required"
  | some q =>
    if q == "" then Except.error "Query is required"
    else if records.isEmpty then
      Except.ok { results := [], totalRecords := none, queryIntent := none,
                  hasDuplicate := none, message := some "检索库为空，请先上传CSV文件" }
    else Except.ok (buildResponse q records)

end SearchSimilar

/-- The undamped Jaccard index over the case-folded whitespace token sets of
two intent strings (the `intersection.size / union.size` value of
`computeIntentSimilarity`). -/
def jaccardIntent (q r : String) : ℚ :=
  let qS := (SearchSimilar.tokenList q).toFinset
  let rS := (SearchSimilar.tokenList r).toFinset
  ((qS ∩ rS).card : ℚ) / ((qS ∪ rS).card : ℚ)

/-- The dampening condition of the specification: both intent strings resolve
(first match in `APP_NAMES` declaration order) to known entity names and those
names differ. -/
def entityDampened (q r : String) : Bool :=
  match SearchSimilar.extractAppName q, SearchSimilar.extractAppName r with
  | some queryApp, some recordApp => !(queryApp == recordApp)
  | _, _ => false

theorem jaccardIntent_left_empty (q r : String)
    (h : (SearchSimilar.tokenList q).toFinset = ∅) : jaccardIntent q r = 0 := by
  rw [jaccardIntent]
  simp [h]

theorem jaccardIntent_right_empty (q r : String)
    (h : (SearchSimilar.tokenList r).toFinset = ∅) : jaccardIntent q r = 0 := by
  rw [jaccardIntent]
  simp [h]

/-- C1.  `is_duplicate` is `true` exactly when the intent similarity clears
`0.7` and the text similarity clears `0.3`; in the scoring pipeline every
result's `is_duplicate` flag is this pure function of its own two scores. -/
theorem c1_isDuplicate_iff :
    (∀ i t : ℚ, isDuplicate i t = true ↔ (7 / 10 ≤ i ∧ 3 / 10 ≤ t)) ∧
    (∀ (q : String) (rs : List FunctionRecord) (r : SearchResult ℝ),
      r ∈ SearchSimilar.scoreRecords q rs →
      r.is_duplicate = isDuplicate r.intent_similarity r.text_similarity) := by
  constructor
  · intro i t
    simp [isDuplicate]
  · intro q rs r hr
    rw [SearchSimilar.scoreRecords] at hr
    simp only [List.mem_map] at hr
    obtain ⟨rec, _, rfl⟩ := hr
    rfl

/-- Witness for C1 at a concrete query/record pair. -/
theorem c1_isDuplicate_iff_witness :
    (isDuplicate ((9 : ℚ) / 10) ((5 : ℚ) / 10) = true ↔
      ((7 : ℚ) / 10 ≤ 9 / 10 ∧ (3 : ℚ) / 10 ≤ 5 / 10)) ∧
    (SearchSimilar.scoreRecords "打开" [⟨1, "打开", some "打开"⟩]).all
      (fun r => r.is_duplicate == isDuplicate r.intent_similarity r.text_similarity) = true :=
  ⟨c1_isDuplicate_iff.1 (9 / 10) (5 / 10),
   List.all_eq_true.mpr fun r hr =>
     beq_iff_eq.mpr (c1_isDuplicate_iff.2 "打开" [⟨1, "打开", some "打开"⟩] r hr)⟩

theorem appMatch_eq_not_entityDampened (q r : String) :
    (match SearchSimilar.APP_NAMES.find? (fun app => strIncludes q app),
           SearchSimilar.APP_NAMES.find? (fun app => strIncludes r app) with
     | some queryApp, some recordApp => queryApp == recordApp
     | _, _ => true) = !entityDampened q r := by
  rw [entityDampened]
  rw [SearchSimilar.extractAppName, SearchSimilar.extractAppName]
  cases SearchSimilar.APP_NAMES.find? (fun app => strIncludes q app) with
  | none => rfl
  | some queryApp =>
    cases SearchSimilar.APP_NAMES.find? (fun app => strIncludes r app) with
    | none => rfl
    | some recordApp => simp

theorem entityDampened_iff (q r : String) :
    entityDampened q r = true ↔
      ∃ queryApp recordApp, SearchSimilar.extractAppName q = some queryApp ∧
        SearchSimilar.extractAppName r = some recordApp ∧ queryApp ≠ recordApp := by
  rw [entityDampened]
  cases hq : SearchSimilar.extractAppName q with
  | none =>
    simp only []
    constructor
    · intro h; exact absurd h (by simp)
    · rintro ⟨qa, ra, hqa, _, _⟩
      exact Option.noConfusion hqa
  | some queryApp =>
    cases hrf : SearchSimilar.extractAppName r with
    | none =>
      simp only []
      constructor
      · intro h; exact absurd h (by simp)
      · rintro ⟨qa, ra, _, hra, _⟩
        exact Option.noConfusion hra
    | some recordApp =>
      simp only [Bool.not_eq_true', beq_eq_false_iff_ne, ne_eq]
      constructor
      · intro h
        exact ⟨queryApp, recordApp, rfl, rfl, h⟩
      · rintro ⟨qa, ra, hqa, hra, hne⟩
        cases hqa; cases hra
        exact hne

theorem computeIntentSimilarity_eq (q r : String) :
    SearchSimilar.computeIntentSimilarity q r =
      (if entityDampened q r then jaccardIntent q r * (3 / 10) else jaccardIntent q r) := by
  rw [SearchSimilar.computeIntentSimilarity]
  by_cases h0 : (q == "" || r == "") = true
  · rw [if_pos h0]
    rcases Bool.or_eq_true_iff.mp h0 with h | h
    · have hq : q = "" := by simpa using h
      have : (SearchSimilar.tokenList q).toFinset = ∅ := by
        subst hq; rfl
      rw [jaccardIntent_left_empty q r this]
      simp
    · have hr : r = "" := by simpa using h
      have : (SearchSimilar.tokenList r).toFinset = ∅ := by
        subst hr; rfl
      rw [jaccardIntent_right_empty q r this]
      simp
  · rw [if_neg h0]
    by_cases h1 : ((SearchSimilar.tokenList q).isEmpty || (SearchSimilar.tokenList r).isEmpty) = true
    · rw [if_pos h1]
      rcases Bool.or_eq_true_iff.mp h1 with h | h
      · have : (SearchSimilar.tokenList q).toFinset = ∅ := by
          rw [List.isEmpty_iff] at h
          rw [h]; rfl
        rw [jaccardIntent_left_empty q r this]
        simp
      · have : (SearchSimilar.tokenList r).toFinset = ∅ := by
          rw [List.isEmpty_iff] at h
          rw [h]; rfl
        rw [jaccardIntent_right_empty q r this]
        simp
    · rw [if_neg h1]
      simp only [appMatch_eq_not_entityDampened q r]
      rw [jaccardIntent]
      cases hd : entityDampened q r with
      | false => simp
      | true => simp

/-- C4.  The intent similarity is the Jaccard index of the case-folded token
sets, multiplied by exactly `0.3` when both intent strings resolve to known,
distinct entity names, and undamped otherwise; the dampening test is the
first entity found in declaration order on each side. -/
theorem c4_entity_dampening (q r : String) :
    SearchSimilar.computeIntentSimilarity q r =
      (if entityDampened q r then jaccardIntent q r * (3 / 10) else jaccardIntent q r) ∧
    (entityDampened q r = true ↔
      ∃ queryApp recordApp, SearchSimilar.extractAppName q = some queryApp ∧
        SearchSimilar.extractAppName r = some recordApp ∧ queryApp ≠ recordApp) :=
  ⟨computeIntentSimilarity_eq q r, entityDampened_iff q r⟩

theorem scanActionTable_first_match :
    ∀ (tbl : List (String × String)) (w : String) (i : Nat) (hi : i < tbl.length),
      strIncludes w (tbl.get ⟨i, hi⟩).1 = true →
      (∀ (j : Nat) (hj : j < i), strIncludes w (tbl.get ⟨j, Nat.lt_trans hj hi⟩).1 = false) →
      scanActionTable tbl w = some (tbl.get ⟨i, hi⟩).2 := by
  intro tbl
  induction tbl with
  | nil => intro w i hi; simp at hi
  | cons kv rest ih =>
    intro w i hi hinc hprev
    obtain ⟨k, v⟩ := kv
    cases i with
    | zero =>
      simp only [List.get] at hinc ⊢
      rw [scanActionTable, if_pos hinc]
    | succ i =>
      have h0 : strIncludes w k = false := by
        have := hprev 0 (Nat.succ_pos i)
        simpa using this
      rw [scanActionTable, if_neg (by simp [h0])]
      have hi' : i < rest.length := Nat.lt_of_succ_lt_succ hi
      have hinc' : strIncludes w (rest.get ⟨i, hi'⟩).1 = true := by
        simpa using hinc
      have hprev' : ∀ (j : Nat) (hj : j < i),
          strIncludes w (rest.get ⟨j, Nat.lt_trans hj hi'⟩).1 = false := by
        intro j hj
        have := hprev (j + 1) (Nat.succ_lt_succ hj)
        simpa using this
      have := ih w i hi' hinc' hprev'
      simpa using this

/-- C8.  Verb canonicalization scans the table in declaration order and maps a
token to the action of the first key the token contains (containment, not
equality); in particular `进入`, `启动` and `开启` all normalize to skeletons
containing the canonical action `打开`, in both normalization variants. -/
theorem c8_verb_canonicalization :
    (∀ (w : String) (i : Nat) (hi : i < ACTION_NORMALIZATION.length),
      strIncludes w (ACTION_NORMALIZATION.get ⟨i, hi⟩).1 = true →
      (∀ (j : Nat) (hj : j < i),
        strIncludes w (ACTION_NORMALIZATION.get ⟨j, Nat.lt_trans hj hi⟩).1 = false) →
      scanActionTable ACTION_NORMALIZATION w = some (ACTION_NORMALIZATION.get ⟨i, hi⟩).2) ∧
    UpdateIntent.normalizeIntent "进入" = "打开" ∧
    UpdateIntent.normalizeIntent "启动" = "打开" ∧
    UpdateIntent.normalizeIntent "开启" = "打开" ∧
    SearchSimilar.extractActions "进入" = ["打开"] ∧
    SearchSimilar.extractActions "启动" = ["打开"] ∧
    SearchSimilar.extractActions "开启" = ["打开"] := by
  refine ⟨fun w i hi => scanActionTable_first_match ACTION_NORMALIZATION w i hi, ?_, ?_, ?_, ?_, ?_, ?_⟩
  · decide
  · decide
  · decide
  · decide
  · decide
  · decide

/-- Witness for C8: the token `进入` contains the table key at index 1 and no
earlier key, and is canonicalized to that key's action `打开`. -/
theorem c8_verb_canonicalization_witness :
    scanActionTable ACTION_NORMALIZATION "进入" =
      some (ACTION_NORMALIZATION.get ⟨1, by decide⟩).2 :=
  c8_verb_canonicalization.1 "进入" 1 (by decide) (by decide) (by decide)

theorem resultCmp_dup_ne {α : Type} [LinearOrderedField α] {a b : SearchResult α}
    (hd : a.is_duplicate ≠ b.is_duplicate) :
    resultCmp a b = if a.is_duplicate then (-1 : α) else 1 := by
  rw [resultCmp, if_pos hd]

theorem resultCmp_dup_eq {α : Type} [LinearOrderedField α] {a b : SearchResult α}
    (hd : a.is_duplicate = b.is_duplicate) :
    resultCmp a b =
      if 1 / 100 < |a.intent_similarity - b.intent_similarity| then
        b.intent_similarity - a.intent_similarity
      else b.text_similarity - a.text_similarity := by
  rw [resultCmp, if_neg (by simp [hd])]

theorem resultLE_total {α : Type} [LinearOrderedField α] (a b : SearchResult α) :
    resultLE a b ∨ resultLE b a := by
  rw [resultLE, resultLE]
  by_cases hd : a.is_duplicate = b.is_duplicate
  · rw [resultCmp_dup_eq hd, resultCmp_dup_eq hd.symm]
    by_cases ht : 1 / 100 < |a.intent_similarity - b.intent_similarity|
    · rw [if_pos ht, if_pos (by rwa [abs_sub_comm])]
      rcases le_total a.intent_similarity b.intent_similarity with h | h
      · right; linarith
      · left; linarith
    · rw [if_neg ht, if_neg (by rwa [abs_sub_comm])]
      rcases le_total a.text_similarity b.text_similarity with h | h
      · right; linarith
      · left; linarith
  · rw [resultCmp_dup_ne hd, resultCmp_dup_ne (fun h => hd h.symm)]
    rcases Bool.eq_false_or_eq_true a.is_duplicate with ha | ha
    · left
      rw [if_pos ha]
      norm_num
    · right
      have hb : b.is_duplicate = true := by
        rcases Bool.eq_false_or_eq_true b.is_duplicate with hb | hb
        · exact hb
        · exact absurd (ha.trans hb.symm) hd
      rw [if_pos hb]
      norm_num

theorem resultLE_iff_specPrecedes {α : Type} [LinearOrderedField α]
    (a b : SearchResult α) : resultLE a b ↔ specPrecedes a b := by
  rw [resultLE, specPrecedes]
  by_cases hd : a.is_duplicate = b.is_duplicate
  · rw [resultCmp_dup_eq hd]
    have hnd : ¬(a.is_duplicate = true ∧ b.is_duplicate = false) := by
      rintro ⟨h1, h2⟩
      rw [h1, h2] at hd
      exact Bool.noConfusion hd
    by_cases ht : 1 / 100 < |a.intent_similarity - b.intent_similarity|
    · rw [if_pos ht]
      constructor
      · intro h
        refine Or.inr (Or.inl ⟨hd, ?_⟩)
        rcases abs_cases (a.intent_similarity - b.intent_similarity) with ⟨habs, _⟩ | ⟨habs, _⟩ <;>
          rw [habs] at ht <;> linarith
      · rintro (h | ⟨_, h⟩ | ⟨_, habs, _⟩)
        · exact absurd h hnd
        · linarith
        · linarith
    · rw [if_neg ht]
      push_neg at ht
      constructor
      · intro h
        exact Or.inr (Or.inr ⟨hd, ht, by linarith⟩)
      · rintro (h | ⟨_, h⟩ | ⟨_, _, h⟩)
        · exact absurd h hnd
        · rcases abs_cases (a.intent_similarity - b.intent_similarity) with ⟨habs, _⟩ | ⟨habs, _⟩ <;>
            rw [habs] at ht <;> linarith
        · linarith
  · rw [resultCmp_dup_ne hd]
    rcases Bool.eq_false_or_eq_true a.is_duplicate with ha | ha
    · have hb : b.is_duplicate = false := by
        rcases Bool.eq_false_or_eq_true b.is_duplicate with hb | hb
        · exact absurd (ha.trans hb.symm) hd
        · exact hb
      rw [if_pos ha]
      constructor
      · intro _; exact Or.inl ⟨ha, hb⟩
      · intro _; norm_num
    · have hb : b.is_duplicate = true := by
        rcases Bool.eq_false_or_eq_true b.is_duplicate with hb | hb
        · exact hb
        · exact absurd (ha.trans hb.symm) hd
      rw [if_neg (by rw [ha]; exact Bool.false_ne_true)]
      constructor
      · intro h; exact absurd h (by norm_num)
      · rintro (⟨h1, _⟩ | ⟨h1, _⟩ | ⟨h1, _⟩)
        · rw [ha] at h1; exact Bool.noConfusion h1
        · rw [ha, hb] at h1; exact Bool.noConfusion h1
        · rw [ha, hb] at h1; exact Bool.noConfusion h1

theorem chainLE_orderedInsert {α : Type} [LinearOrderedField α] (a : SearchResult α) :
    ∀ l : List (SearchResult α), l.Chain' resultLE →
      (l.orderedInsert resultLE a).Chain' resultLE := by
  intro l
  induction l with
  | nil => intro _; simp [List.orderedInsert]
  | cons b t ih =>
    intro h
    rw [List.orderedInsert]
    by_cases hab : resultLE a b
    · rw [if_pos hab]
      exact List.chain'_cons.mpr ⟨hab, h⟩
    · rw [if_neg hab]
      have hba : resultLE b a := (resultLE_total a b).resolve_left hab
      have hins := ih h.tail
      apply List.chain'_cons'.mpr
      refine ⟨?_, hins⟩
      intro c hc
      cases t with
      | nil =>
        simp [List.orderedInsert] at hc
        subst hc
        exact hba
      | cons d t2 =>
        rw [List.orderedInsert] at hc
        by_cases had : resultLE a d
        · rw [if_pos had] at hc
          simp at hc
          subst hc
          exact hba
        · rw [if_neg had] at hc
          simp at hc
          subst hc
          exact (List.chain'_cons.mp h).1

theorem chainLE_insertionSort {α : Type} [LinearOrderedField α] :
    ∀ l : List (SearchResult α), (List.insertionSort resultLE l).Chain' resultLE := by
  intro l
  induction l with
  | nil => simp [List.insertionSort]
  | cons a t ih =>
    rw [List.insertionSort]
    exact chainLE_orderedInsert a _ ih

theorem resultLE_dup {α : Type} [LinearOrderedField α] {a b : SearchResult α}
    (h : resultLE a b) (hb : b.is_duplicate = true) : a.is_duplicate = true := by
  rcases Bool.eq_false_or_eq_true a.is_duplicate with ha | ha
  · exact ha
  · exfalso
    rw [resultLE, resultCmp_dup_ne (by rw [ha, hb]; exact Bool.false_ne_true)] at h
    rw [if_neg (by rw [ha]; exact Bool.false_ne_true)] at h
    norm_num at h

theorem chain_dup_head {α : Type} [LinearOrderedField α] :
    ∀ l : List (SearchResult α), l.Chain' resultLE →
      l.any (fun r => r.is_duplicate) = true →
      ∃ x, l.head? = some x ∧ x.is_duplicate = true := by
  intro l
  induction l with
  | nil => intro _ h; simp at h
  | cons a t ih =>
    intro hc hany
    refine ⟨a, rfl, ?_⟩
    rcases Bool.eq_false_or_eq_true a.is_duplicate with ha | ha
    · exact ha
    · exfalso
      rw [List.any_cons, ha] at hany
      simp only [Bool.false_or] at hany
      obtain ⟨x, hx, hxdup⟩ := ih hc.tail hany
      cases t with
      | nil => simp at hx
      | cons b t2 =>
        simp only [List.head?] at hx
        cases hx
        have hab : resultLE a x := (List.chain'_cons.mp hc).1
        rw [resultLE_dup hab hxdup] at ha
        exact Bool.noConfusion ha

theorem perm_any_dup {α : Type} [LinearOrderedField α]
    {l1 l2 : List (SearchResult α)} (h : l1.Perm l2) :
    l1.any (fun r => r.is_duplicate) = l2.any (fun r => r.is_duplicate) := by
  rw [Bool.eq_iff_iff, List.any_eq_true, List.any_eq_true]
  constructor
  · rintro ⟨x, hx, hdx⟩; exact ⟨x, h.mem_iff.mp hx, hdx⟩
  · rintro ⟨x, hx, hdx⟩; exact ⟨x, h.mem_iff.mpr hx, hdx⟩

theorem rankResults_any_dup {α : Type} [LinearOrderedField α]
    (l : List (SearchResult α)) :
    (rankResults l).any (fun r => r.is_duplicate) = l.any (fun r => r.is_duplicate) := by
  rw [rankResults]
  have hperm : (List.insertionSort resultLE l).Perm l := List.perm_insertionSort _ _
  rw [← perm_any_dup hperm]
  cases hany : (List.insertionSort resultLE l).any (fun r => r.is_duplicate) with
  | false =>
    rw [List.any_eq_false] at hany ⊢
    intro x hx
    exact hany x (List.take_subset 5 _ hx)
  | true =>
    obtain ⟨x, hx, hxdup⟩ := chain_dup_head _ (chainLE_insertionSort l) hany
    cases hl : List.insertionSort resultLE l with
    | nil => rw [hl] at hx; simp at hx
    | cons y t =>
      rw [hl] at hx
      simp only [List.head?] at hx
      cases hx
      simp [hxdup]

/-- A three-record score assignment on which the comparator's `0.01`
intent-similarity tolerance is not transitive: each record is within `0.01` of
its neighbour but the two extremes are not. -/
def cexC2 : List (SearchResult ℚ) :=
  [⟨1, "", 10 / 100, 9 / 10, false⟩,
   ⟨2, "", 109 / 1000, 5 / 10, false⟩,
   ⟨3, "", 118 / 1000, 4 / 10, false⟩]

/-- C2, counterexample.  On `cexC2` the list the ranking step returns is not
sorted (pairwise) by the specified criterion: the `0.01` tolerance makes the
tie relation non-transitive, so the first and third returned records compare
the wrong way around. -/
theorem c2_counterexample :
    ¬ ((rankResults cexC2).Pairwise (specPrecedes (α := ℚ))) := by
  have hA1 : resultLE (⟨2, "", 109 / 1000, 5 / 10, false⟩ : SearchResult ℚ)
      ⟨3, "", 118 / 1000, 4 / 10, false⟩ := by
    rw [resultLE, resultCmp]
    dsimp only
    rw [if_neg (by simp)]
    rw [if_neg (by rw [abs_of_nonpos (by norm_num)]; norm_num)]
    norm_num
  have hA2 : resultLE (⟨1, "", 10 / 100, 9 / 10, false⟩ : SearchResult ℚ)
      ⟨2, "", 109 / 1000, 5 / 10, false⟩ := by
    rw [resultLE, resultCmp]
    dsimp only
    rw [if_neg (by simp)]
    rw [if_neg (by rw [abs_of_nonpos (by norm_num)]; norm_num)]
    norm_num
  have hsort : List.insertionSort resultLE cexC2 = cexC2 := by
    rw [cexC2]
    rw [List.insertionSort, List.insertionSort, List.insertionSort, List.insertionSort]
    rw [List.orderedInsert]
    rw [List.orderedInsert, if_pos hA1]
    rw [List.orderedInsert, if_pos hA2]
  intro hpw
  rw [rankResults, hsort] at hpw
  have htake : cexC2.take 5 = cexC2 := rfl
  rw [htake, cexC2, List.pairwise_cons] at hpw
  have hs := hpw.1 ⟨3, "", 118 / 1000, 4 / 10, false⟩ (by simp)
  rw [specPrecedes] at hs
  dsimp only at hs
  rcases hs with ⟨h1, _⟩ | ⟨_, h2⟩ | ⟨_, h3, _⟩
  · exact Bool.noConfusion h1
  · norm_num at h2
  · rw [abs_of_nonpos (by norm_num)] at h3
    norm_num at h3

/-- C2, amended.  The returned list is the first five elements of a stable
insertion sort of the scored records by the comparator (duplicates first, then
intent similarity descending treating differences of at most `0.01` as ties,
then text similarity descending): it is a five-element prefix of a permutation
of the records in which every adjacent pair is ordered by that criterion.
Full pairwise sortedness can fail when intent scores chain inside the
tolerance (see the counterexample). -/
theorem c2_rank_amended (results : List (SearchResult ℚ)) :
    ∃ l : List (SearchResult ℚ), List.Perm l results ∧
      List.Chain' (specPrecedes (α := ℚ)) l ∧ rankResults results = l.take 5 := by
  refine ⟨List.insertionSort resultLE results, List.perm_insertionSort _ _, ?_, rfl⟩
  exact (chainLE_insertionSort results).imp
    (fun a b hab => (resultLE_iff_specPrecedes a b).mp hab)

/-- C10.  The reported `hasDuplicate` aggregate, computed over only the
truncated top-five list, equals the existence of a duplicate among all scored
records: the sort puts every duplicate ahead of every non-duplicate, so a
duplicate (when one exists) occupies the head and survives `slice(0, 5)`. -/
theorem c10_hasDuplicate_truncation (query : String) (records : List FunctionRecord) :
    (SearchSimilar.buildResponse query records).hasDuplicate =
      some ((SearchSimilar.scoreRecords query records).any (fun r => r.is_duplicate)) := by
  rw [SearchSimilar.buildResponse]
  simp only
  rw [rankResults_any_dup]

/-- The response body of the empty-corpus branch of the serve handler. -/
def emptyCorpusResponse : SearchSimilar.SearchResponse :=
  { results := [], totalRecords := none, queryIntent := none,
    hasDuplicate := none, message := some "检索库为空，请先上传CSV文件" }

/-- C3, counterexample.  On an empty record set the handler early-returns a
body with only `results` and `message`: the `hasDuplicate` and `totalRecords`
fields are absent (not `false` and `0` as the claim states). -/
theorem c3_counterexample :
    SearchSimilar.serveSearch (some "anything") [] = Except.ok emptyCorpusResponse ∧
    ¬ (emptyCorpusResponse.hasDuplicate = some false ∧
       emptyCorpusResponse.totalRecords = some 0) := by
  constructor
  · rw [SearchSimilar.serveSearch]
    rw [if_neg (by decide)]
    rfl
  · rintro ⟨h, _⟩
    exact Option.noConfusion h

/-- C3, amended.  For every non-empty query and the empty record set the
handler returns an empty result list together with an explanatory message;
the `hasDuplicate` and `totalRecords` fields are omitted from the response
(the caller reads the absent `hasDuplicate` as false by defaulting). -/
theorem c3_empty_corpus (q : String) (h : q ≠ "") :
    SearchSimilar.serveSearch (some q) [] = Except.ok emptyCorpusResponse := by
  rw [SearchSimilar.serveSearch]
  rw [if_neg (by simpa using h)]
  rfl

/-- Witness for C3 at the concrete query of the specification's example. -/
theorem c3_empty_corpus_witness :
    SearchSimilar.serveSearch (some "anything") [] = Except.ok emptyCorpusResponse :=
  c3_empty_corpus "anything" (by decide)

/-- C6, counterexample.  The falsy-query guard also rejects a present but
empty query string: `{query: ""}` is answered with the `Query is required`
error even though the query field is neither missing nor undefined. -/
theorem c6_counterexample :
    SearchSimilar.serveSearch (some "") [] = Except.error "Query is required" := rfl

/-- C6, amended.  The handler signals `Query is required` exactly when the
query field is missing/undefined or is the empty string (JS falsiness); for
every non-empty query string and every record set it is total and returns a
successful response. -/
theorem c6_validation (q : Option String) (records : List FunctionRecord) :
    (SearchSimilar.serveSearch q records = Except.error "Query is required" ↔
      (q = none ∨ q = some "")) ∧
    (∀ s, q = some s → s ≠ "" →
      ∃ resp, SearchSimilar.serveSearch q records = Except.ok resp) := by
  constructor
  · cases q with
    | none => simp [SearchSimilar.serveSearch]
    | some s =>
      rw [SearchSimilar.serveSearch]
      by_cases hs : (s == "") = true
      · have : s = "" := by simpa using hs
        subst this
        simp
      · rw [if_neg hs]
        have hs' : ¬ s = "" := by simpa using hs
        by_cases hr : records.isEmpty = true
        · rw [if_pos hr]
          simp [hs']
        · rw [if_neg hr]
          simp [hs']
  · intro s hq hs
    subst hq
    rw [SearchSimilar.serveSearch]
    rw [if_neg (by simpa using hs)]
    by_cases hr : records.isEmpty = true
    · rw [if_pos hr]
      exact ⟨_, rfl⟩
    · rw [if_neg hr]
      exact ⟨_, rfl⟩

/-- Witness for C6: the missing-query error and a successful call at a
non-empty query. -/
theorem c6_validation_witness :
    SearchSimilar.serveSearch none [] = Except.error "Query is required" ∧
    ∃ resp, SearchSimilar.serveSearch (some "打开") [] = Except.ok resp :=
  ⟨(c6_validation none []).1.mpr (Or.inl rfl),
   (c6_validation (some "打开") []).2 "打开" rfl (by decide)⟩

/-- C5, counterexample.  A supplied structural hierarchy label does not appear
verbatim ahead of the free-text tokens: the combined string is re-normalized,
and here the label `账户管理` (a four-character CJK run) is redacted by the
bare-run slot pattern, leaving an empty skeleton without the label. -/
theorem c5_counterexample :
    ¬ ((splitWs (ProcessCsv.extractIntent (some "账户管理") none none [])).head? =
        some "账户管理") := by decide

/-- C5, amended.  Supplied labels are prepended, in hierarchy order, to the
pre-normalization concatenation (labels first, then the normalized free-text
queries), but they do not skip steps 2–4: the whole combined string is passed
through `normalizeIntent` again, so labels undergo slot redaction, verb
canonicalization, residual filtering and deduplication like any other text. -/
theorem c5_labels_renormalized (a b c : String) (qs : List String)
    (ha : a ≠ "") (hb : b ≠ "") (hc : c ≠ "") :
    ProcessCsv.extractIntent (some a) (some b) (some c) qs =
      UpdateIntent.normalizeIntent
        (a ++ " " ++ (b ++ " " ++ joinSp (c :: ProcessCsv.queryParts qs))) := by
  rw [ProcessCsv.extractIntent]
  simp only [ProcessCsv.optPart]
  rw [if_neg (by simpa using ha), if_neg (by simpa using hb), if_neg (by simpa using hc)]
  have h1 : ([a] ++ [b] ++ [c] ++ ProcessCsv.queryParts qs : List String) =
      a :: b :: c :: ProcessCsv.queryParts qs := by simp
  rw [h1, joinSp, joinSp]

/-- Witness for C5 at concrete labels. -/
theorem c5_labels_renormalized_witness :
    ProcessCsv.extractIntent (some "登录") (some "查看") (some "打开") [] =
      UpdateIntent.normalizeIntent
        ("登录" ++ " " ++ ("查看" ++ " " ++ joinSp ("打开" :: ProcessCsv.queryParts []))) :=
  c5_labels_renormalized "登录" "查看" "打开" [] (by decide) (by decide) (by decide)

theorem string_mk_data : ∀ s : String, String.mk s.data = s
  | ⟨_⟩ => rfl

theorem string_data_append : ∀ s t : String, (s ++ t).data = s.data ++ t.data
  | ⟨_⟩, ⟨_⟩ => rfl

theorem splitWsGo_dropWhile :
    ∀ l : List Char, splitWsGo [] l = splitWsGo [] (l.dropWhile isWsC) := by
  intro l
  induction l with
  | nil => rfl
  | cons c rest ih =>
    by_cases hc : isWsC c = true
    · rw [List.dropWhile_cons_of_pos hc, ← ih]
      rw [splitWsGo, if_pos hc]
      rfl
    · rw [List.dropWhile_cons_of_neg hc]

theorem splitWsGo_all_ws :
    ∀ (tail : List Char) (acc : List Char), tail.all isWsC = true →
      splitWsGo acc tail = (if acc.isEmpty then [] else [String.mk acc.reverse]) := by
  intro tail
  induction tail with
  | nil => intro acc _; rfl
  | cons c rest ih =>
    intro acc hall
    rw [List.all_cons, Bool.and_eq_true] at hall
    rw [splitWsGo, if_pos hall.1]
    by_cases ha : acc.isEmpty = true
    · rw [if_pos ha, ih [] hall.2, if_pos ha]
      rfl
    · rw [if_neg ha, ih [] hall.2, if_neg ha]
      rfl

theorem splitWsGo_append_ws :
    ∀ (l tail : List Char) (acc : List Char), tail.all isWsC = true →
      splitWsGo acc (l ++ tail) = splitWsGo acc l := by
  intro l
  induction l with
  | nil =>
    intro tail acc htail
    rw [List.nil_append, splitWsGo_all_ws tail acc htail]
    rfl
  | cons c rest ih =>
    intro tail acc htail
    rw [List.cons_append, splitWsGo, splitWsGo]
    by_cases hc : isWsC c = true
    · rw [if_pos hc, if_pos hc]
      by_cases ha : acc.isEmpty = true
      · rw [if_pos ha, if_pos ha, ih tail [] htail]
      · rw [if_neg ha, if_neg ha, ih tail [] htail]
    · rw [if_neg hc, if_neg hc, ih tail (c :: acc) htail]

theorem mem_takeWhile_ws :
    ∀ (l : List Char), (l.takeWhile isWsC).all isWsC = true := by
  intro l
  induction l with
  | nil => rfl
  | cons c rest ih =>
    by_cases hc : isWsC c = true
    · rw [List.takeWhile_cons_of_pos hc, List.all_cons, hc, ih]
      rfl
    · rw [List.takeWhile_cons_of_neg hc]
      rfl

theorem splitWs_trimS : ∀ s : String, splitWs (trimS s) = splitWs s := by
  intro s
  rw [splitWs, splitWs, trimS]
  set m := s.data.dropWhile isWsC with hm
  have hsplit : m = (m.reverse.dropWhile isWsC).reverse ++ (m.reverse.takeWhile isWsC).reverse := by
    have := List.takeWhile_append_dropWhile (p := isWsC) (l := m.reverse)
    calc m = m.reverse.reverse := by rw [List.reverse_reverse]
    _ = (m.reverse.takeWhile isWsC ++ m.reverse.dropWhile isWsC).reverse := by rw [this]
    _ = (m.reverse.dropWhile isWsC).reverse ++ (m.reverse.takeWhile isWsC).reverse := by
        rw [List.reverse_append]
  rw [splitWsGo_dropWhile s.data]
  conv_rhs => rw [← hm, hsplit]
  rw [splitWsGo_append_ws _ _ _ (by rw [List.all_reverse]; exact mem_takeWhile_ws m.reverse)]

theorem splitWsGo_token :
    ∀ (tk rest acc : List Char), tk.all (fun c => !isWsC c) = true →
      splitWsGo acc (tk ++ rest) = splitWsGo (tk.reverse ++ acc) rest := by
  intro tk
  induction tk with
  | nil => intro rest acc _; rfl
  | cons c tk2 ih =>
    intro rest acc hall
    rw [List.all_cons, Bool.and_eq_true] at hall
    have hc : isWsC c = false := by
      rcases hall.1 with h
      cases hcc : isWsC c
      · rfl
      · rw [hcc] at h; exact Bool.noConfusion h
    rw [List.cons_append, splitWsGo, if_neg (by rw [hc]; exact Bool.false_ne_true)]
    rw [ih rest (c :: acc) hall.2]
    rw [List.reverse_cons, List.append_assoc]
    rfl

theorem splitWs_joinSp :
    ∀ toks : List String,
      (∀ w ∈ toks, w.data ≠ [] ∧ w.data.all (fun c => !isWsC c) = true) →
      splitWs (joinSp toks) = toks := by
  intro toks
  induction toks with
  | nil => intro _; rfl
  | cons x rest ih =>
    intro hcond
    obtain ⟨hx0, hx1⟩ := hcond x (List.mem_cons_self x rest)
    cases rest with
    | nil =>
      rw [joinSp, splitWs]
      have := splitWsGo_token x.data [] [] hx1
      rw [List.append_nil] at this
      rw [this]
      rw [splitWsGo]
      rw [if_neg (by simpa using (by simpa using hx0 : ¬ x.data = []))]
      rw [List.append_nil, List.reverse_reverse, string_mk_data]
    | cons y rest2 =>
      rw [joinSp]
      rw [splitWs]
      rw [string_data_append, string_data_append]
      have hsp : (" " : String).data = [' '] := rfl
      rw [hsp, List.append_assoc]
      have := splitWsGo_token x.data (([' '] : List Char) ++ (joinSp (y :: rest2)).data) [] hx1
      rw [this]
      have hstep : splitWsGo (x.data.reverse ++ []) ([' '] ++ (joinSp (y :: rest2)).data) =
          String.mk (x.data.reverse ++ []).reverse :: splitWsGo [] (joinSp (y :: rest2)).data := by
        rw [List.cons_append]
        rw [splitWsGo]
        rw [if_pos (show isWsC ' ' = true by rfl)]
        rw [if_neg (by
          simp only [List.append_nil, List.isEmpty_eq_true, List.reverse_eq_nil_iff]
          simpa using hx0)]
        rw [List.nil_append]
      rw [hstep]
      rw [List.append_nil, List.reverse_reverse, string_mk_data]
      have hrest : ∀ w ∈ y :: rest2, w.data ≠ [] ∧ w.data.all (fun c => !isWsC c) = true :=
        fun w hw => hcond w (List.mem_cons_of_mem x hw)
      rw [show splitWsGo [] (joinSp (y :: rest2)).data = splitWs (joinSp (y :: rest2)) from rfl]
      rw [ih hrest]

theorem splitWsGo_words :
    ∀ (l acc : List Char), acc.all (fun c => !isWsC c) = true →
      ∀ w ∈ splitWsGo acc l, w.data ≠ [] ∧ w.data.all (fun c => !isWsC c) = true := by
  intro l
  induction l with
  | nil =>
    intro acc hacc w hw
    rw [splitWsGo] at hw
    by_cases ha : acc.isEmpty = true
    · rw [if_pos ha] at hw
      exact absurd hw (List.not_mem_nil w)
    · rw [if_neg ha] at hw
      rw [List.mem_singleton] at hw
      subst hw
      constructor
      · simp only [List.reverse_eq_nil_iff]
        simpa [List.isEmpty_eq_true] using ha
      · rw [List.all_reverse]
        exact hacc
  | cons c rest ih =>
    intro acc hacc w hw
    rw [splitWsGo] at hw
    by_cases hc : isWsC c = true
    · rw [if_pos hc] at hw
      by_cases ha : acc.isEmpty = true
      · rw [if_pos ha] at hw
        exact ih [] rfl w hw
      · rw [if_neg ha] at hw
        rcases List.mem_cons.mp hw with h1 | h2
        · subst h1
          constructor
          · simp only [List.reverse_eq_nil_iff]
            simpa [List.isEmpty_eq_true] using ha
          · rw [List.all_reverse]
            exact hacc
        · exact ih [] rfl w h2
    · rw [if_neg hc] at hw
      refine ih (c :: acc) ?_ w hw
      rw [List.all_cons, Bool.and_eq_true]
      refine ⟨?_, hacc⟩
      cases hcc : isWsC c
      · rfl
      · exact absurd hcc hc

theorem scanActionTable_mem :
    ∀ (tbl : List (String × String)) (w v : String),
      scanActionTable tbl w = some v → v ∈ tbl.map (fun kv => kv.2) := by
  intro tbl
  induction tbl with
  | nil => intro w v h; exact Option.noConfusion h
  | cons kv rest ih =>
    intro w v h
    obtain ⟨k, v0⟩ := kv
    rw [scanActionTable] at h
    by_cases hk : strIncludes w k = true
    · rw [if_pos hk] at h
      cases h
      exact List.mem_cons_self _ _
    · rw [if_neg hk] at h
      exact List.mem_cons_of_mem _ (ih w v h)

theorem foldl_stepWord_invariant (P : String → Prop)
    (hval : ∀ v ∈ ACTION_NORMALIZATION.map (fun kv => kv.2), P v) :
    ∀ (ws acc : List String), (∀ w ∈ acc, P w) →
      (∀ w ∈ ws, w ≠ qPlaceholder → P w) →
      ∀ w ∈ ws.foldl UpdateIntent.stepWord acc, P w := by
  intro ws
  induction ws with
  | nil => intro acc hacc _ w hw; exact hacc w hw
  | cons x xs ih =>
    intro acc hacc hws w hw
    rw [List.foldl_cons] at hw
    refine ih (UpdateIntent.stepWord acc x) ?_ (fun u hu hne => hws u (List.mem_cons_of_mem x hu) hne) w hw
    intro u hu
    rw [UpdateIntent.stepWord] at hu
    by_cases hx : (x == qPlaceholder) = true
    · rw [if_pos hx] at hu
      exact hacc u hu
    · rw [if_neg hx] at hu
      cases hscan : scanActionTable ACTION_NORMALIZATION x with
      | some v =>
        rw [hscan] at hu
        dsimp only at hu
        by_cases hv : v ∈ acc
        · rw [if_pos hv] at hu
          exact hacc u hu
        · rw [if_neg hv] at hu
          rcases List.mem_append.mp hu with h1 | h2
          · exact hacc u h1
          · rw [List.mem_singleton] at h2
            subst h2
            exact hval u (scanActionTable_mem _ _ _ hscan)
      | none =>
        rw [hscan] at hu
        dsimp only at hu
        by_cases hk : (decide (2 ≤ x.length) && !startsWithFiller x) = true
        · rw [if_pos hk] at hu
          rcases List.mem_append.mp hu with h1 | h2
          · exact hacc u h1
          · rw [List.mem_singleton] at h2
            subst h2
            exact hws u (List.mem_cons_self _ _) (by simpa using hx)
        · rw [if_neg hk] at hu
          exact hacc u hu

theorem dedupFirstGo_mem :
    ∀ (l seen : List String) (w : String),
      w ∈ UpdateIntent.dedupFirstGo seen l → w ∈ l := by
  intro l
  induction l with
  | nil => intro seen w h; exact absurd h (List.not_mem_nil w)
  | cons x xs ih =>
    intro seen w h
    rw [UpdateIntent.dedupFirstGo] at h
    by_cases hx : x ∈ seen
    · rw [if_pos hx] at h
      exact List.mem_cons_of_mem x (ih seen w h)
    · rw [if_neg hx] at h
      rcases List.mem_cons.mp h with h1 | h2
      · subst h1; exact List.mem_cons_self _ _
      · exact List.mem_cons_of_mem x (ih (x :: seen) w h2)

/-- Every token of a normalized skeleton is either a table action or a
residual input word, and in both cases it is non-empty, whitespace-free and
distinct from the placeholder. -/
theorem normalizeIntent_tokens :
    ∀ (t : String) (w : String),
      w ∈ splitWs (UpdateIntent.normalizeIntent t) → w ≠ qPlaceholder := by
  intro t w hw
  rw [UpdateIntent.normalizeIntent] at hw
  by_cases ht : (t == "") = true
  · rw [if_pos ht] at hw
    exact absurd hw (List.not_mem_nil w)
  · rw [if_neg ht] at hw
    simp only at hw
    set words := splitWs (applySlotPatterns t) with hwords
    set pushed := words.foldl UpdateIntent.stepWord [] with hpushed
    set toks := UpdateIntent.dedupFirst pushed with htoks
    have hwellformed : ∀ u ∈ toks, u.data ≠ [] ∧ u.data.all (fun c => !isWsC c) = true := by
      intro u hu
      have hu2 : u ∈ pushed := by
        have h0 : u ∈ UpdateIntent.dedupFirst pushed := htoks ▸ hu
        rw [UpdateIntent.dedupFirst] at h0
        exact dedupFirstGo_mem pushed [] u h0
      refine foldl_stepWord_invariant
        (fun v => v.data ≠ [] ∧ v.data.all (fun c => !isWsC c) = true)
        (by decide) words [] (by intro v hv; exact absurd hv (List.not_mem_nil v)) ?_ u hu2
      intro v hv _
      exact splitWsGo_words (applySlotPatterns t).data [] rfl v hv
    rw [splitWs_trimS, splitWs_joinSp toks hwellformed] at hw
    have h1 : w ∈ pushed := by
      have h0 : w ∈ UpdateIntent.dedupFirst pushed := htoks ▸ hw
      rw [UpdateIntent.dedupFirst] at h0
      exact dedupFirstGo_mem pushed [] w h0
    refine foldl_stepWord_invariant (fun v => v ≠ qPlaceholder) (by decide) words []
      (by intro v hv; exact absurd hv (List.not_mem_nil v)) (fun v _ hne => hne) w h1

/-- C9.  Normalizing `播放《山楂树之恋》` yields the skeleton whose only token is
the canonical action `播放` — the quoted span contributes nothing — and, in
general, the redaction placeholder `<QUERY>` never survives as a token of any
skeleton. -/
theorem c9_slot_redaction :
    splitWs (UpdateIntent.normalizeIntent "播放《山楂树之恋》") = ["播放"] ∧
    (∀ t : String, qPlaceholder ∉ splitWs (UpdateIntent.normalizeIntent t)) := by
  constructor
  · decide
  · intro t hmem
    exact normalizeIntent_tokens t qPlaceholder hmem rfl

/-- Witness for C9 at a further concrete input (one whose redacted span is the
whole text). -/
theorem c9_slot_redaction_witness :
    qPlaceholder ∉ splitWs (UpdateIntent.normalizeIntent "打开全民K歌") :=
  c9_slot_redaction.2 "打开全民K歌"

theorem jaccardIntent_bounds (q r : String) :
    0 ≤ jaccardIntent q r ∧ jaccardIntent q r ≤ 1 := by
  rw [jaccardIntent]
  set qS := (SearchSimilar.tokenList q).toFinset
  set rS := (SearchSimilar.tokenList r).toFinset
  have hsub : (qS ∩ rS).card ≤ (qS ∪ rS).card :=
    Finset.card_le_card Finset.inter_subset_union
  constructor
  · exact div_nonneg (Nat.cast_nonneg _) (Nat.cast_nonneg _)
  · rcases Nat.eq_zero_or_pos (qS ∪ rS).card with hc | hc
    · rw [hc]
      norm_num
    · rw [div_le_one (by exact_mod_cast hc)]
      exact_mod_cast hsub

theorem computeIntentSimilarity_bounds (q r : String) :
    0 ≤ SearchSimilar.computeIntentSimilarity q r ∧
      SearchSimilar.computeIntentSimilarity q r ≤ 1 := by
  rw [computeIntentSimilarity_eq]
  obtain ⟨h0, h1⟩ := jaccardIntent_bounds q r
  cases hd : entityDampened q r
  · simpa using ⟨h0, h1⟩
  · simp only [eq_self_iff_true, if_true]
    constructor
    · exact mul_nonneg h0 (by norm_num)
    · nlinarith [h0, h1]

theorem vGet_tf_nonneg (doc : List String) (w : String) :
    0 ≤ SearchSimilar.vGet (SearchSimilar.computeTermFrequency doc) w := by
  rw [SearchSimilar.vGet]
  by_cases hm : w ∈ (SearchSimilar.computeTermFrequency doc).support
  · rw [if_pos hm]
    show (0 : ℝ) ≤ (doc.count w : ℝ) / (doc.length : ℝ)
    exact div_nonneg (Nat.cast_nonneg _) (Nat.cast_nonneg _)
  · rw [if_neg hm]

theorem mem_foldl_union :
    ∀ (sets : List (Finset String)) (init : Finset String) (w : String),
      w ∈ sets.foldl (fun a b => a ∪ b) init ↔ w ∈ init ∨ ∃ s ∈ sets, w ∈ s := by
  intro sets
  induction sets with
  | nil => intro init w; simp
  | cons s rest ih =>
    intro init w
    rw [List.foldl_cons, ih, Finset.mem_union]
    constructor
    · rintro ((h | h) | ⟨s2, hs2, hw⟩)
      · exact Or.inl h
      · exact Or.inr ⟨s, List.mem_cons_self _ _, h⟩
      · exact Or.inr ⟨s2, List.mem_cons_of_mem _ hs2, hw⟩
    · rintro (h | ⟨s2, hs2, hw⟩)
      · exact Or.inl (Or.inl h)
      · rcases List.mem_cons.mp hs2 with h1 | h2
        · subst h1; exact Or.inl (Or.inr hw)
        · exact Or.inr ⟨s2, h2, hw⟩

theorem vGet_idf_nonneg (documents : List (List String)) (w : String) :
    0 ≤ SearchSimilar.vGet (SearchSimilar.computeIDF documents) w := by
  rw [SearchSimilar.vGet]
  by_cases hm : w ∈ (SearchSimilar.computeIDF documents).support
  · rw [if_pos hm]
    show (0 : ℝ) ≤ Real.log ((documents.length : ℝ) /
      ((documents.countP (fun d => decide (w ∈ d))) : ℝ))
    apply Real.log_nonneg
    have hmem : ∃ d ∈ documents, w ∈ d := by
      have hm2 : w ∈ (documents.map List.toFinset).foldl (fun a b => a ∪ b) ∅ := hm
      rcases (mem_foldl_union _ _ _).mp hm2 with h | ⟨s, hs, hw⟩
      · exact absurd h (Finset.not_mem_empty w)
      · rcases List.mem_map.mp hs with ⟨d, hd, rfl⟩
        exact ⟨d, hd, List.mem_toFinset.mp hw⟩
    have hk1 : 0 < documents.countP (fun d => decide (w ∈ d)) := by
      rw [List.countP_pos]
      obtain ⟨d, hd, hw⟩ := hmem
      exact ⟨d, hd, by simpa using hw⟩
    have hkN : documents.countP (fun d => decide (w ∈ d)) ≤ documents.length :=
      List.countP_le_length _
    rw [le_div_iff (by exact_mod_cast hk1), one_mul]
    exact_mod_cast hkN
  · rw [if_neg hm]

theorem vGet_tfidf_nonneg (documents : List (List String)) (doc : List String) (w : String) :
    0 ≤ SearchSimilar.vGet
        (SearchSimilar.computeTFIDF (SearchSimilar.computeTermFrequency doc)
          (SearchSimilar.computeIDF documents)) w := by
  rw [SearchSimilar.vGet]
  by_cases hm : w ∈ (SearchSimilar.computeTFIDF (SearchSimilar.computeTermFrequency doc)
      (SearchSimilar.computeIDF documents)).support
  · rw [if_pos hm]
    show 0 ≤ SearchSimilar.vGet (SearchSimilar.computeTermFrequency doc) w *
        SearchSimilar.vGet (SearchSimilar.computeIDF documents) w
    exact mul_nonneg (vGet_tf_nonneg doc w) (vGet_idf_nonneg documents w)
  · rw [if_neg hm]

theorem cosineSimilarity_bounds (v1 v2 : SearchSimilar.SparseVec)
    (h1 : ∀ w, 0 ≤ SearchSimilar.vGet v1 w) (h2 : ∀ w, 0 ≤ SearchSimilar.vGet v2 w) :
    0 ≤ SearchSimilar.cosineSimilarity v1 v2 ∧ SearchSimilar.cosineSimilarity v1 v2 ≤ 1 := by
  rw [SearchSimilar.cosineSimilarity]
  set A := v1.support ∪ v2.support with hA
  by_cases hz : (∑ w ∈ A, SearchSimilar.vGet v1 w ^ 2) = 0 ∨
      (∑ w ∈ A, SearchSimilar.vGet v2 w ^ 2) = 0
  · rw [if_pos hz]
    norm_num
  · rw [if_neg hz]
    push_neg at hz
    have hs1 : 0 ≤ ∑ w ∈ A, SearchSimilar.vGet v1 w ^ 2 :=
      Finset.sum_nonneg fun w _ => sq_nonneg _
    have hs2 : 0 ≤ ∑ w ∈ A, SearchSimilar.vGet v2 w ^ 2 :=
      Finset.sum_nonneg fun w _ => sq_nonneg _
    have hp1 : 0 < ∑ w ∈ A, SearchSimilar.vGet v1 w ^ 2 := lt_of_le_of_ne hs1 (Ne.symm hz.1)
    have hp2 : 0 < ∑ w ∈ A, SearchSimilar.vGet v2 w ^ 2 := lt_of_le_of_ne hs2 (Ne.symm hz.2)
    have hd : 0 ≤ ∑ w ∈ A, SearchSimilar.vGet v1 w * SearchSimilar.vGet v2 w :=
      Finset.sum_nonneg fun w _ => mul_nonneg (h1 w) (h2 w)
    have hcs := Real.sum_mul_le_sqrt_mul_sqrt A
      (fun w => SearchSimilar.vGet v1 w) (fun w => SearchSimilar.vGet v2 w)
    have hsq1 : 0 < Real.sqrt (∑ w ∈ A, SearchSimilar.vGet v1 w ^ 2) := Real.sqrt_pos.mpr hp1
    have hsq2 : 0 < Real.sqrt (∑ w ∈ A, SearchSimilar.vGet v2 w ^ 2) := Real.sqrt_pos.mpr hp2
    constructor
    · exact div_nonneg hd (le_of_lt (mul_pos hsq1 hsq2))
    · rw [div_le_one (mul_pos hsq1 hsq2)]
      exact hcs

/-- C7.  Every intent similarity and every TF-IDF cosine similarity the
pipeline computes lies in `[0, 1]` (the model uses exact reals, so there is no
NaN to guard against beyond the explicit zero-norm branch); the cosine is `0`
whenever either vector has zero norm; and every TF-IDF weight is
non-negative. -/
theorem c7_score_bounds :
    (∀ (query : String) (records : List FunctionRecord) (r : SearchResult ℝ),
      r ∈ SearchSimilar.scoreRecords query records →
      0 ≤ r.intent_similarity ∧ r.intent_similarity ≤ 1 ∧
      0 ≤ r.text_similarity ∧ r.text_similarity ≤ 1) ∧
    (∀ v1 v2 : SearchSimilar.SparseVec,
      ((∑ w ∈ v1.support ∪ v2.support, SearchSimilar.vGet v1 w ^ 2) = 0 ∨
       (∑ w ∈ v1.support ∪ v2.support, SearchSimilar.vGet v2 w ^ 2) = 0) →
      SearchSimilar.cosineSimilarity v1 v2 = 0) ∧
    (∀ (documents : List (List String)) (doc : List String) (w : String),
      0 ≤ SearchSimilar.vGet
          (SearchSimilar.computeTFIDF (SearchSimilar.computeTermFrequency doc)
            (SearchSimilar.computeIDF documents)) w) := by
  refine ⟨?_, ?_, vGet_tfidf_nonneg⟩
  · intro query records r hr
    rw [SearchSimilar.scoreRecords] at hr
    dsimp only at hr
    rw [List.mem_map] at hr
    obtain ⟨rec, _, rfl⟩ := hr
    dsimp only
    have hint := computeIntentSimilarity_bounds (SearchSimilar.normalizeIntent query)
      (SearchSimilar.effectiveIntent rec)
    have hcos := cosineSimilarity_bounds
      (SearchSimilar.computeTFIDF
        (SearchSimilar.computeTermFrequency (SearchSimilar.preprocessText query))
        (SearchSimilar.computeIDF
          (records.map (fun r2 => SearchSimilar.preprocessText r2.search_text) ++
            [SearchSimilar.preprocessText query])))
      (SearchSimilar.computeTFIDF
        (SearchSimilar.computeTermFrequency (SearchSimilar.preprocessText rec.search_text))
        (SearchSimilar.computeIDF
          (records.map (fun r2 => SearchSimilar.preprocessText r2.search_text) ++
            [SearchSimilar.preprocessText query])))
      (fun w => vGet_tfidf_nonneg _ _ w) (fun w => vGet_tfidf_nonneg _ _ w)
    refine ⟨?_, ?_, hcos.1, hcos.2⟩
    · exact_mod_cast hint.1
    · exact_mod_cast hint.2
  · intro v1 v2 hz
    rw [SearchSimilar.cosineSimilarity]
    rw [if_pos hz]

/-- Witness for C7 at a concrete query, record and pair of empty vectors. -/
theorem c7_score_bounds_witness :
    List.Forall
      (fun r : SearchResult ℝ =>
        0 ≤ r.intent_similarity ∧ r.intent_similarity ≤ 1 ∧
        0 ≤ r.text_similarity ∧ r.text_similarity ≤ 1)
      (SearchSimilar.scoreRecords "打开" [⟨1, "打开", some "打开"⟩]) ∧
    SearchSimilar.cosineSimilarity ⟨∅, fun _ => 0⟩ ⟨∅, fun _ => 0⟩ = 0 ∧
    0 ≤ SearchSimilar.vGet
        (SearchSimilar.computeTFIDF (SearchSimilar.computeTermFrequency ["打开"])
          (SearchSimilar.computeIDF [["打开"]])) "打开" :=
  ⟨List.forall_iff_forall_mem.mpr
      (fun r hr => c7_score_bounds.1 "打开" [⟨1, "打开", some "打开"⟩] r hr),
   c7_score_bounds.2.1 ⟨∅, fun _ => 0⟩ ⟨∅, fun _ => 0⟩ (Or.inl (by simp)),
   c7_score_bounds.2.2 [["打开"]] ["打开"] "打开"⟩
